import Mathlib

/-!
Shallow embedding of the `samborkent/cache` repository (lock_free_cache.go and
cache.go) together with theorems settling the specification claims.

Modelling conventions:
* Go `uint64` values are `Nat` with explicit `% 2 ^ 64` where Go arithmetic wraps.
* `maphash.Comparable(c.seed, key)` is an opaque per-instance seeded hash; it is
  modelled by a function field `hash : K → Nat` fixed at construction.
* A `weak.Pointer[V]` is modelled by `Option V`: `some v` while the referent is
  alive (`Value()` returns non-nil), `none` once it has been collected.  The
  claims under study concern executions in which liveness does not change, so
  liveness is part of the entry value.
* `atomic.Pointer[cacheEntry[V]]` slots are `Option (CacheEntry V)` (`none` is
  the nil pointer).  In the single-threaded executions the claims quantify over,
  every `CompareAndSwap(load, new)` succeeds, so a CAS is a plain store; the
  random-eviction tier therefore always succeeds on its first CAS attempt and
  the `sync.Pool` recycling is value-invisible.
* The PRNG is modelled by passing the random word consumed by a `Put` as an
  explicit argument `rnd`.
* Go `int` arguments that can be negative (`size`, `maxSize`) are `Int`.
-/

set_option linter.unusedVariables false

/-- `cacheEntry[V]` from lock_free_cache.go: a key hash paired with a weak
reference to the value (`some v` = alive, `none` = collected). -/
structure CacheEntry (V : Type) where
  keyHash : Nat
  valueRef : Option V

/-- The half-swap `keyHash>>32 | keyHash<<32` computed (in uint64 arithmetic)
inside `probeIndex` in lock_free_cache.go. -/
def hashMix (keyHash : Nat) : Nat :=
  (keyHash >>> 32) ||| ((keyHash <<< 32) % 2 ^ 64)

/-- `probeIndex(keyHash, i, size)` from lock_free_cache.go:
`int((keyHash + uint64(i)*(keyHash>>32|keyHash<<32)) % uint64(size))`,
all operations wrapping modulo `2 ^ 64` before the final reduction mod `size`. -/
def probeIndex (keyHash i size : Nat) : Nat :=
  ((keyHash + i * hashMix keyHash) % 2 ^ 64) % size

/-- `LockFreeCache[K, V]` from lock_free_cache.go.  The `seed` field is
represented by the `hash` function, the `pool` and `rng` fields are modelled as
described in the file header, and the seven metric counters are kept as plain
naturals (`atomic.Uint64` overflow is irrelevant to the claims). -/
structure LockFreeCache (K V : Type) where
  entries : List (Option (CacheEntry V))
  hash : K → Nat
  size : Nat
  hashProbeDepth : Nat
  initialized : Bool
  readMisses : Nat
  readHits : Nat
  firstWrites : Nat
  probeWrites : Nat
  emptyWrites : Nat
  randomCASWrites : Nat
  randomWrites : Nat

/-- `Metrics` snapshot struct from lock_free_cache.go. -/
structure Metrics where
  ReadMisses : Nat
  ReadHits : Nat
  FirstWrites : Nat
  ProbeWrites : Nat
  EmptyWrites : Nat
  RandomCASWrites : Nat
  RandomWrites : Nat

/-- Fuel-carrying helper for `intLog2` (the fuel only forces structural
recursion; `intLog2` supplies enough of it). -/
def log2Aux : Nat → Nat → Nat
  | 0, _ => 0
  | fuel + 1, n => if n ≥ 2 then log2Aux fuel (n / 2) + 1 else 0

/-- Floor of the base-2 logarithm (0 at 0), the exact value of Go's
`int(math.Log2(float64(n)))` used by `NewLockFreeCache`; written with explicit
fuel so that it evaluates by kernel reduction. -/
def intLog2 (n : Nat) : Nat := log2Aux n n

/-- `NewLockFreeCache[K, V](size)` from lock_free_cache.go.  `size <= 0`
returns the zero struct (disabled cache: `initialized` false, `size` 0, nil
slot slice).  Otherwise `size` null slots are allocated and
`hashProbeDepth = max(1, int(math.Log2(float64(size))))`; the float64
computation `int(math.Log2(float64(size)))` is modelled by its exact
mathematical counterpart `intLog2 size` (the floor of the base-2 logarithm,
proved equal to `Nat.log2` below). -/
def NewLockFreeCache {K V : Type} (hash : K → Nat) (size : Int) : LockFreeCache K V :=
  if size ≤ 0 then
    { entries := [], hash := hash, size := 0, hashProbeDepth := 0, initialized := false,
      readMisses := 0, readHits := 0, firstWrites := 0, probeWrites := 0,
      emptyWrites := 0, randomCASWrites := 0, randomWrites := 0 }
  else
    { entries := List.replicate size.toNat none, hash := hash, size := size.toNat,
      hashProbeDepth := max 1 (intLog2 size.toNat), initialized := true,
      readMisses := 0, readHits := 0, firstWrites := 0, probeWrites := 0,
      emptyWrites := 0, randomCASWrites := 0, randomWrites := 0 }

/-- Loop test of `Put`'s first tier (lines 87-104 of lock_free_cache.go): the
slot at `probeIndex keyHash i size` is non-nil and holds the same key hash. -/
def tier1Hit {V : Type} (es : List (Option (CacheEntry V))) (keyHash size i : Nat) : Bool :=
  match es.getD (probeIndex keyHash i size) none with
  | some entry => entry.keyHash == keyHash
  | none => false

/-- Loop test of `Put`'s second tier (lines 107-121 of lock_free_cache.go): the
slot at `probeIndex keyHash i size` is nil, holds the same key hash, is
tombstoned (`keyHash == 0`), or its weak reference is dead. -/
def tier2Reclaim {V : Type} (es : List (Option (CacheEntry V))) (keyHash size i : Nat) : Bool :=
  match es.getD (probeIndex keyHash i size) none with
  | none => true
  | some entry => entry.keyHash == keyHash || entry.keyHash == 0 || entry.valueRef.isNone

/-- `(*LockFreeCache).Put(key, value)` from lock_free_cache.go, specialised to a
single-threaded execution in which every CAS succeeds: the first tier-1 probe
index (`i < hashProbeDepth`) holding the same key hash wins (`firstWrites` if
`i == 0`, else `probeWrites`); otherwise the first reclaimable index among the
`size` tier-2 probes wins (`emptyWrites`); otherwise the random-eviction CAS at
`rnd % size` succeeds on the first of its `randomEntryRetries` attempts
(`randomCASWrites`).  The unconditional fallback store (`randomWrites`) is
unreachable without CAS interference. -/
def LockFreeCache.Put {K V : Type} (c : LockFreeCache K V) (key : K) (value : V)
    (rnd : Nat) : LockFreeCache K V :=
  if !c.initialized then c
  else
    let keyHash := c.hash key
    let newEntry : CacheEntry V := { keyHash := keyHash, valueRef := some value }
    match (List.range c.hashProbeDepth).find? (tier1Hit c.entries keyHash c.size) with
    | some i =>
      if i == 0 then
        { c with entries := c.entries.set (probeIndex keyHash i c.size) (some newEntry),
                 firstWrites := c.firstWrites + 1 }
      else
        { c with entries := c.entries.set (probeIndex keyHash i c.size) (some newEntry),
                 probeWrites := c.probeWrites + 1 }
    | none =>
      match (List.range c.size).find? (tier2Reclaim c.entries keyHash c.size) with
      | some i =>
        { c with entries := c.entries.set (probeIndex keyHash i c.size) (some newEntry),
                 emptyWrites := c.emptyWrites + 1 }
      | none =>
        { c with entries := c.entries.set (rnd % c.size) (some newEntry),
                 randomCASWrites := c.randomCASWrites + 1 }

/-- The probe loop of `(*LockFreeCache).Get` (lines 148-172 of
lock_free_cache.go), iterating `i` while `fuel` counts the remaining
iterations (`i + fuel = hashProbeDepth` at the call site).  Result:
(slot table after lazy invalidations, hit value, list of slot indices
inspected in order).  A nil or tombstoned slot is skipped; a dead entry is
invalidated (slot CAS'd to nil) and skipped; a live matching entry is a hit.
Sequentially the re-check of the weak reference after the hash match sees the
same live value, so the stale-hit `break` path is unreachable. -/
def getGo {V : Type} (keyHash size : Nat) :
    Nat → Nat → List (Option (CacheEntry V)) →
      List (Option (CacheEntry V)) × Option V × List Nat
  | _, 0, es => (es, none, [])
  | i, fuel + 1, es =>
    let index := probeIndex keyHash i size
    match es.getD index none with
    | none =>
      let r := getGo keyHash size (i + 1) fuel es
      (r.1, r.2.1, index :: r.2.2)
    | some entry =>
      if entry.keyHash = 0 then
        let r := getGo keyHash size (i + 1) fuel es
        (r.1, r.2.1, index :: r.2.2)
      else
        match entry.valueRef with
        | none =>
          let r := getGo keyHash size (i + 1) fuel (es.set index none)
          (r.1, r.2.1, index :: r.2.2)
        | some v =>
          if entry.keyHash = keyHash then (es, some v, [index])
          else
            let r := getGo keyHash size (i + 1) fuel es
            (r.1, r.2.1, index :: r.2.2)

/-- `(*LockFreeCache).Get(key)` from lock_free_cache.go.  `(c, none)` models
the `(*new(V), false)` return; a hit records `readHits`, an exhausted probe
loop records `readMisses`. -/
def LockFreeCache.Get {K V : Type} (c : LockFreeCache K V) (key : K) :
    LockFreeCache K V × Option V :=
  if !c.initialized then (c, none)
  else
    let keyHash := c.hash key
    let r := getGo keyHash c.size 0 c.hashProbeDepth c.entries
    match r.2.1 with
    | some v => ({ c with entries := r.1, readHits := c.readHits + 1 }, some v)
    | none => ({ c with entries := r.1, readMisses := c.readMisses + 1 }, none)

/-- The list of slot indices inspected by `(*LockFreeCache).Get(key)` (the
third component of the probe loop's result; empty for a disabled cache, whose
`Get` returns before touching any slot). -/
def LockFreeCache.GetTrace {K V : Type} (c : LockFreeCache K V) (key : K) : List Nat :=
  if !c.initialized then []
  else (getGo (c.hash key) c.size 0 c.hashProbeDepth c.entries).2.2

/-- `(*LockFreeCache).Len()` from lock_free_cache.go: linear scan of the
`size` slots counting non-nil entries whose weak reference is alive. -/
def LockFreeCache.Len {K V : Type} (c : LockFreeCache K V) : Nat :=
  (List.range c.size).countP (fun i =>
    match c.entries.getD i none with
    | some entry => entry.valueRef.isSome
    | none => false)

/-- `(*LockFreeCache).Cap()` from lock_free_cache.go: the fixed `size`. -/
def LockFreeCache.Cap {K V : Type} (c : LockFreeCache K V) : Nat :=
  c.size

/-- `(*LockFreeCache).Metrics()` from lock_free_cache.go: snapshot of the
seven counters. -/
def LockFreeCache.metrics {K V : Type} (c : LockFreeCache K V) : Metrics :=
  { ReadMisses := c.readMisses, ReadHits := c.readHits,
    FirstWrites := c.firstWrites, ProbeWrites := c.probeWrites,
    EmptyWrites := c.emptyWrites, RandomCASWrites := c.randomCASWrites,
    RandomWrites := c.randomWrites }

/-- Sum of the five write counters of a `LockFreeCache`
(FirstWrites + ProbeWrites + EmptyWrites + RandomCASWrites + RandomWrites). -/
def writeSum {K V : Type} (c : LockFreeCache K V) : Nat :=
  c.firstWrites + c.probeWrites + c.emptyWrites + c.randomCASWrites + c.randomWrites

/-- Fold a sequence of `Put` calls (key, value, random word) over a
`LockFreeCache`. -/
def LockFreeCache.putList {K V : Type} (c : LockFreeCache K V)
    (ops : List (K × V × Nat)) : LockFreeCache K V :=
  ops.foldl (fun acc op => acc.Put op.1 op.2.1 op.2.2) c

/-- The slot indices examined by `Put`'s second tier for a given hash and table
size: `probeIndex keyHash i size` for `i = 0 .. size-1` in loop order
(lines 107-121 of lock_free_cache.go). -/
def tier2Indices (keyHash size : Nat) : List Nat :=
  (List.range size).map (fun i => probeIndex keyHash i size)

/-- `Cache[K, V]` from cache.go (the growable variant): parallel sequences of
key hashes and weak references behind one lock (the lock itself is invisible in
the sequential model), an optional `maxSize`, and the `initialized` flag.  The
`seed` field is represented by the `hash` function. -/
structure Cache (K V : Type) where
  keyHashes : List Nat
  values : List (Option V)
  hash : K → Nat
  maxSize : Int
  initialized : Bool

/-- `NewCache[K, V](initialSize, maxSize)` from cache.go: empty parallel
slices (`initialSize` only pre-allocates capacity, which is value-invisible),
the given `maxSize`, marked initialized. -/
def NewCache {K V : Type} (hash : K → Nat) (initialSize maxSize : Int) : Cache K V :=
  { keyHashes := [], values := [], hash := hash, maxSize := maxSize, initialized := true }

/-- `(*Cache).Put(key, value)` from cache.go.  `slices.Index` is
`List.findIdx?` of an equality test; `rand.IntN(len)` is modelled by
`rnd % len` with the random word passed explicitly.  `runtime.AddCleanup`
registers the eager-reclamation callback, which never fires in an execution
where liveness does not change, so it is not part of the state transition. -/
def Cache.Put {K V : Type} (c : Cache K V) (key : K) (value : V) (rnd : Nat) : Cache K V :=
  if !c.initialized then c
  else
    let keyHash := c.hash key
    match c.keyHashes.findIdx? (· == keyHash) with
    | some index => { c with values := c.values.set index (some value) }
    | none =>
      match c.keyHashes.findIdx? (· == 0) with
      | some zeroIndex =>
        { c with keyHashes := c.keyHashes.set zeroIndex keyHash,
                 values := c.values.set zeroIndex (some value) }
      | none =>
        if c.maxSize ≠ 0 ∧ (c.keyHashes.length : Int) ≥ c.maxSize then
          let index := rnd % c.keyHashes.length
          { c with keyHashes := c.keyHashes.set index keyHash,
                   values := c.values.set index (some value) }
        else
          { c with keyHashes := c.keyHashes ++ [keyHash],
                   values := c.values ++ [some value] }

/-- `(*Cache).Get(key)` from cache.go: look the hash up with `slices.Index`;
a missing hash is a miss; a found index whose weak reference is dead zeroes
the hash (tombstone) and misses; otherwise the live value is returned. -/
def Cache.Get {K V : Type} (c : Cache K V) (key : K) : Cache K V × Option V :=
  if !c.initialized then (c, none)
  else
    match c.keyHashes.findIdx? (· == c.hash key) with
    | none => (c, none)
    | some index =>
      match c.values.getD index none with
      | none => ({ c with keyHashes := c.keyHashes.set index 0 }, none)
      | some v => (c, some v)

/-- `(*Cache).Len()` from cache.go: the length of the key-hash slice. -/
def Cache.Len {K V : Type} (c : Cache K V) : Nat :=
  c.keyHashes.length

/-- `(*Cache).Cap()` from cache.go: the configured `maxSize`. -/
def Cache.Cap {K V : Type} (c : Cache K V) : Int :=
  c.maxSize

/-- Fold a sequence of `Put` calls (key, value) over a growable `Cache`; the
random word is irrelevant below `maxSize` and fixed to 0. -/
def Cache.putList {K V : Type} (c : Cache K V) (ops : List (K × V)) : Cache K V :=
  ops.foldl (fun acc op => acc.Put op.1 op.2 0) c

/-- The spec's arithmetic description of `mix` (spec section 4.2): swap the
high and low 32-bit halves of the 64-bit hash. -/
def mixSpec (keyHash : Nat) : Nat :=
  (keyHash % 2 ^ 32) * 2 ^ 32 + keyHash / 2 ^ 32

/-- Bits below `2 ^ 32` and a value shifted up by 32 bits occupy disjoint bit
positions, so their bitwise-or is their sum. -/
theorem lor_low_high (q r : Nat) (h : q < 2 ^ 32) : q ||| (r * 2 ^ 32) = q + r * 2 ^ 32 := by
  apply Nat.eq_of_testBit_eq
  intro j
  rw [Nat.testBit_lor]
  rcases lt_or_ge j 32 with hj | hj
  · have h1 : (r * 2 ^ 32).testBit j = false := by
      rw [mul_comm, Nat.testBit_mul_pow_two]
      simp [Nat.not_le.mpr hj]
    have hmod : (q + r * 2 ^ 32) % 2 ^ 32 = q := by
      rw [Nat.add_mul_mod_self_right, Nat.mod_eq_of_lt h]
    have h2 := Nat.testBit_mod_two_pow (q + r * 2 ^ 32) 32 j
    rw [hmod] at h2
    rw [h1, h2]
    simp [hj]
  · have h1 : q.testBit j = false :=
      Nat.testBit_lt_two_pow (lt_of_lt_of_le h (Nat.pow_le_pow_right (by norm_num) hj))
    have h2 : (r * 2 ^ 32).testBit j = r.testBit (j - 32) := by
      rw [mul_comm, Nat.testBit_mul_pow_two]
      simp [hj]
    have hdiv : (q + r * 2 ^ 32) >>> 32 = r := by
      rw [Nat.shiftRight_eq_div_pow]
      rw [Nat.add_mul_div_right _ _ (by norm_num : (0:Nat) < 2 ^ 32), Nat.div_eq_of_lt h]
      omega
    have h3 : (q + r * 2 ^ 32).testBit j = r.testBit (j - 32) := by
      have h4 := Nat.testBit_shiftRight (i := 32) (j := j - 32) (q + r * 2 ^ 32)
      rw [hdiv] at h4
      have hj32 : 32 + (j - 32) = j := by omega
      rw [hj32] at h4
      exact h4.symm
    rw [h1, h2, h3]
    simp

/-- For a 64-bit hash, the bitwise half-swap computed by `probeIndex` agrees
with the spec's arithmetic description of `mix`. -/
theorem hashMix_eq_mixSpec (keyHash : Nat) (h : keyHash < 2 ^ 64) :
    hashMix keyHash = mixSpec keyHash := by
  have hq : keyHash >>> 32 = keyHash / 2 ^ 32 := Nat.shiftRight_eq_div_pow keyHash 32
  have hqlt : keyHash / 2 ^ 32 < 2 ^ 32 := by
    apply Nat.div_lt_of_lt_mul
    exact lt_of_lt_of_le h (by norm_num)
  have hr : (keyHash <<< 32) % 2 ^ 64 = (keyHash % 2 ^ 32) * 2 ^ 32 := by
    rw [Nat.shiftLeft_eq]
    have : (2 : Nat) ^ 64 = 2 ^ 32 * 2 ^ 32 := by norm_num
    rw [this, Nat.mul_mod_mul_right]
  unfold hashMix mixSpec
  rw [hq, hr, lor_low_high _ _ hqlt]
  omega

/-- C7: for every 64-bit hash, every probe number `i`, and every `size > 0`,
`probeIndex(hash, i, size)` equals `(hash + i * mix(hash)) mod size` with
`mix` the high/low half swap and the inner arithmetic wrapping modulo
`2 ^ 64`, and the result lies in `[0, size)`. -/
theorem probeIndex_spec (keyHash i size : Nat) (hh : keyHash < 2 ^ 64) (hs : 0 < size) :
    probeIndex keyHash i size = ((keyHash + i * mixSpec keyHash) % 2 ^ 64) % size ∧
    probeIndex keyHash i size < size := by
  constructor
  · unfold probeIndex
    rw [hashMix_eq_mixSpec keyHash hh]
  · exact Nat.mod_lt _ hs

/-- Witness for `probeIndex_spec` at hash 5, probe number 3, size 7. -/
theorem probeIndex_spec_witness :
    probeIndex 5 3 7 = ((5 + 3 * mixSpec 5) % 2 ^ 64) % 7 ∧ probeIndex 5 3 7 < 7 :=
  probeIndex_spec 5 3 7 (by decide) (by decide)

/-- The fuel-based `log2Aux` computes `Nat.log2` once the fuel bounds the
argument. -/
theorem log2Aux_eq_log2 : ∀ (fuel n : Nat), n ≤ fuel → log2Aux fuel n = Nat.log2 n := by
  intro fuel
  induction fuel with
  | zero =>
    intro n h
    have : n = 0 := by omega
    subst this
    simp [log2Aux, Nat.log2]
  | succ m ih =>
    intro n h
    rw [log2Aux]
    by_cases h2 : n ≥ 2
    · have hlt : n / 2 < n := Nat.div_lt_self (by omega) (by omega)
      rw [ih (n / 2) (by omega)]
      conv_rhs => rw [Nat.log2]
    · conv_rhs => rw [Nat.log2]
      simp [h2]

/-- `intLog2` is the floor base-2 logarithm `Nat.log2`. -/
theorem intLog2_eq_log2 (n : Nat) : intLog2 n = Nat.log2 n :=
  log2Aux_eq_log2 n n le_rfl

/-- C6: for `size > 0` the constructed cache has
`hashProbeDepth = max(1, floor(log2 size))`, this value lies in `[1, size]`,
and no operation (`Put`, `Get`) ever changes the field. -/
theorem hashProbeDepth_spec {K V : Type} (hash : K → Nat) (size : Int) (hs : 0 < size) :
    (NewLockFreeCache hash size : LockFreeCache K V).hashProbeDepth
        = max 1 (Nat.log2 size.toNat) ∧
    1 ≤ (NewLockFreeCache hash size : LockFreeCache K V).hashProbeDepth ∧
    (NewLockFreeCache hash size : LockFreeCache K V).hashProbeDepth ≤ size.toNat ∧
    (∀ (c : LockFreeCache K V) (k : K) (v : V) (rnd : Nat),
        (c.Put k v rnd).hashProbeDepth = c.hashProbeDepth) ∧
    (∀ (c : LockFreeCache K V) (k : K), ((c.Get k).1).hashProbeDepth = c.hashProbeDepth) := by
  have hpos : ¬ size ≤ 0 := not_le.mpr hs
  have hdepth : (NewLockFreeCache hash size : LockFreeCache K V).hashProbeDepth
      = max 1 (Nat.log2 size.toNat) := by
    simp [NewLockFreeCache, hpos, intLog2_eq_log2]
  have htn : 1 ≤ size.toNat := by omega
  refine ⟨hdepth, ?_, ?_, ?_, ?_⟩
  · rw [hdepth]; exact le_max_left _ _
  · rw [hdepth]
    apply max_le htn
    have : Nat.log2 size.toNat < size.toNat := by
      rw [Nat.log2_lt (by omega)]
      exact Nat.lt_two_pow size.toNat
    omega
  · intro c k v rnd
    unfold LockFreeCache.Put
    split
    · rfl
    · dsimp only
      split
      · split <;> rfl
      · split <;> rfl
  · intro c k
    unfold LockFreeCache.Get
    split
    · rfl
    · dsimp only
      split <;> rfl

/-- Witness for `hashProbeDepth_spec` at size 8 (`hashProbeDepth = 3`). -/
theorem hashProbeDepth_spec_witness :
    (NewLockFreeCache (fun x => x) 8 : LockFreeCache Nat Nat).hashProbeDepth
        = max 1 (Nat.log2 (8 : Int).toNat) ∧
    1 ≤ (NewLockFreeCache (fun x => x) 8 : LockFreeCache Nat Nat).hashProbeDepth ∧
    (NewLockFreeCache (fun x => x) 8 : LockFreeCache Nat Nat).hashProbeDepth ≤ (8 : Int).toNat ∧
    (∀ (c : LockFreeCache Nat Nat) (k : Nat) (v : Nat) (rnd : Nat),
        (c.Put k v rnd).hashProbeDepth = c.hashProbeDepth) ∧
    (∀ (c : LockFreeCache Nat Nat) (k : Nat), ((c.Get k).1).hashProbeDepth = c.hashProbeDepth) :=
  hashProbeDepth_spec (fun x => x) 8 (by decide)

/-- C5: construction with `size <= 0` yields a permanently disabled cache:
`Put` is the identity on the state, `Get` returns the zero value with
`found = false` and changes nothing, `Len()` is 0 and `Cap()` is 0. -/
theorem disabled_cache_spec {K V : Type} (hash : K → Nat) (size : Int) (hs : size ≤ 0)
    (k : K) (v : V) (rnd : Nat) :
    (NewLockFreeCache hash size : LockFreeCache K V).Put k v rnd = NewLockFreeCache hash size ∧
    (NewLockFreeCache hash size : LockFreeCache K V).Get k = (NewLockFreeCache hash size, none) ∧
    (NewLockFreeCache hash size : LockFreeCache K V).Len = 0 ∧
    (NewLockFreeCache hash size : LockFreeCache K V).Cap = 0 := by
  refine ⟨?_, ?_, ?_, ?_⟩ <;>
    simp [NewLockFreeCache, hs, LockFreeCache.Put, LockFreeCache.Get,
      LockFreeCache.Len, LockFreeCache.Cap]

/-- Witness for `disabled_cache_spec` at size 0. -/
theorem disabled_cache_spec_witness :
    (NewLockFreeCache (fun x => x) 0 : LockFreeCache Nat Nat).Put 7 42 0
        = NewLockFreeCache (fun x => x) 0 ∧
    (NewLockFreeCache (fun x => x) 0 : LockFreeCache Nat Nat).Get 7
        = (NewLockFreeCache (fun x => x) 0, none) ∧
    (NewLockFreeCache (fun x => x) 0 : LockFreeCache Nat Nat).Len = 0 ∧
    (NewLockFreeCache (fun x => x) 0 : LockFreeCache Nat Nat).Cap = 0 :=
  disabled_cache_spec (fun x => x) 0 (by decide) 7 42 0

/-- C3 counterexample: for key hash 2 and size 2 the stride
`mix(2) = 2 ^ 33` is even, so every tier-2 probe lands on slot 0 and index 1
is never visited — the scan does not cover every index in `[0, size)`. -/
theorem tier2_cover_cex : 1 < 2 ∧ 1 ∉ tier2Indices 2 2 := by decide

/-- C3 (amended): Put's second tier performs exactly `size` probe steps,
visiting the indices `probeIndex hash i size` for `i in [0, size)` in order,
starting at `probeIndex hash 0 size`; every visited index lies in `[0, size)`
(but the visited indices need not cover the whole table), and the slot the
tier claims (the first probe step whose reclaim test succeeds) is one of
these indices. -/
theorem tier2_scan_indices (V : Type) (keyHash size : Nat) (hs : 0 < size) :
    (tier2Indices keyHash size).length = size ∧
    (tier2Indices keyHash size).head? = some (probeIndex keyHash 0 size) ∧
    (∀ j ∈ tier2Indices keyHash size, j < size) ∧
    ∀ (es : List (Option (CacheEntry V))) (i : Nat),
      (List.range size).find? (tier2Reclaim es keyHash size) = some i →
        i < size ∧ probeIndex keyHash i size ∈ tier2Indices keyHash size := by
  refine ⟨?_, ?_, ?_, ?_⟩
  · simp [tier2Indices]
  · obtain ⟨n, rfl⟩ : ∃ n, size = n + 1 := ⟨size - 1, by omega⟩
    simp [tier2Indices, List.range_succ_eq_map]
  · intro j hj
    rw [tier2Indices, List.mem_map] at hj
    obtain ⟨i, _, rfl⟩ := hj
    exact Nat.mod_lt _ hs
  · intro es i hfind
    have hmem : i ∈ List.range size := List.mem_of_find?_eq_some hfind
    have hi : i < size := List.mem_range.mp hmem
    exact ⟨hi, List.mem_map.mpr ⟨i, hmem, rfl⟩⟩

/-- Witness for `tier2_scan_indices` at hash 5, size 3. -/
theorem tier2_scan_indices_witness :
    (tier2Indices 5 3).length = 3 ∧
    (tier2Indices 5 3).head? = some (probeIndex 5 0 3) ∧
    (∀ j ∈ tier2Indices 5 3, j < 3) ∧
    ∀ (es : List (Option (CacheEntry Nat))) (i : Nat),
      (List.range 3).find? (tier2Reclaim es 5 3) = some i →
        i < 3 ∧ probeIndex 5 i 3 ∈ tier2Indices 5 3 :=
  tier2_scan_indices Nat 5 3 (by decide)

/-- The probe loop of `Get` can never produce a hit for key hash 0: a stored
entry with `keyHash == 0` is skipped as a tombstone before the hash
comparison is ever reached. -/
theorem getGo_zero_result {V : Type} (size : Nat) :
    ∀ (fuel i : Nat) (es : List (Option (CacheEntry V))),
      (getGo 0 size i fuel es).2.1 = none := by
  intro fuel
  induction fuel with
  | zero => intro i es; rfl
  | succ n ih =>
    intro i es
    rw [getGo]
    split
    · exact ih (i + 1) es
    · split
      · exact ih (i + 1) es
      · split
        · exact ih (i + 1) _
        · exact ih (i + 1) es

/-- C8: a key whose seeded hash is exactly 0 is unfindable: `Get` for such a
key returns `(zero value, false)` on every cache state, regardless of any
prior `Put` of that key, because every slot holding hash 0 is skipped as a
tombstone. -/
theorem zero_hash_unfindable {K V : Type} (c : LockFreeCache K V) (k : K)
    (hk : c.hash k = 0) : (c.Get k).2 = none := by
  unfold LockFreeCache.Get
  split
  · rfl
  · dsimp only
    rw [hk, getGo_zero_result]

/-- Witness for `zero_hash_unfindable`: even immediately after `Put` of the
hash-0 key, `Get` misses. -/
theorem zero_hash_unfindable_witness :
    ((((NewLockFreeCache (fun _ => 0) 2 : LockFreeCache Nat Nat).Put 9 1 0)).Get 9).2 = none :=
  zero_hash_unfindable ((NewLockFreeCache (fun _ => 0) 2 : LockFreeCache Nat Nat).Put 9 1 0) 9
    (by decide)

/-- `Put` never changes the `initialized` flag. -/
theorem put_initialized {K V : Type} (c : LockFreeCache K V) (k : K) (v : V) (rnd : Nat) :
    (c.Put k v rnd).initialized = c.initialized := by
  unfold LockFreeCache.Put
  split
  · rfl
  · dsimp only
    split
    · split <;> rfl
    · split <;> rfl

/-- A `Put` on an enabled cache adds exactly 1 to the sum of the five write
counters. -/
theorem put_writeSum {K V : Type} (c : LockFreeCache K V) (k : K) (v : V) (rnd : Nat)
    (h : c.initialized = true) : writeSum (c.Put k v rnd) = writeSum c + 1 := by
  unfold LockFreeCache.Put
  split
  · rename_i hbad
    rw [h] at hbad
    simp at hbad
  · dsimp only
    split
    · split <;> (dsimp only [writeSum]; omega)
    · split <;> (dsimp only [writeSum]; omega)

/-- A sequence of `Put` calls on an enabled cache adds its length to the sum
of the five write counters. -/
theorem putList_writeSum {K V : Type} (ops : List (K × V × Nat)) :
    ∀ (c : LockFreeCache K V), c.initialized = true →
      writeSum (c.putList ops) = writeSum c + ops.length := by
  induction ops with
  | nil => intro c h; simp [LockFreeCache.putList]
  | cons op tl ih =>
    intro c h
    have h2 : (c.Put op.1 op.2.1 op.2.2).initialized = true := by
      rw [put_initialized]; exact h
    have := ih (c.Put op.1 op.2.1 op.2.2) h2
    simp only [LockFreeCache.putList, List.foldl_cons] at this ⊢
    rw [this, put_writeSum c op.1 op.2.1 op.2.2 h]
    simp
    omega

/-- C4: on an enabled cache every `Put` adds exactly one to the sum of the
five write counters while no write counter decreases (hence exactly one of
the five is incremented, by one) and the read counters are untouched; on a
disabled cache `Put` changes nothing; consequently after `N` `Put` calls on a
freshly constructed enabled cache the sum of the five write counters is
exactly `N`. -/
theorem put_write_counters {K V : Type} (c : LockFreeCache K V) (k : K) (v : V) (rnd : Nat)
    (ops : List (K × V × Nat)) (hash : K → Nat) (size : Int) :
    (c.initialized = true →
        writeSum (c.Put k v rnd) = writeSum c + 1 ∧
        c.firstWrites ≤ (c.Put k v rnd).firstWrites ∧
        c.probeWrites ≤ (c.Put k v rnd).probeWrites ∧
        c.emptyWrites ≤ (c.Put k v rnd).emptyWrites ∧
        c.randomCASWrites ≤ (c.Put k v rnd).randomCASWrites ∧
        c.randomWrites ≤ (c.Put k v rnd).randomWrites ∧
        (c.Put k v rnd).readHits = c.readHits ∧
        (c.Put k v rnd).readMisses = c.readMisses) ∧
    (c.initialized = false → c.Put k v rnd = c) ∧
    (0 < size →
        writeSum ((NewLockFreeCache hash size : LockFreeCache K V).putList ops) = ops.length) := by
  refine ⟨?_, ?_, ?_⟩
  · intro h
    unfold LockFreeCache.Put
    split
    · rename_i hbad
      rw [h] at hbad
      simp at hbad
    · dsimp only
      split
      · split <;> (dsimp only [writeSum]; omega)
      · split <;> (dsimp only [writeSum]; omega)
  · intro h
    unfold LockFreeCache.Put
    rw [h]
    rfl
  · intro hs
    have hpos : ¬ size ≤ 0 := not_le.mpr hs
    have h1 : (NewLockFreeCache hash size : LockFreeCache K V).initialized = true := by
      simp [NewLockFreeCache, hpos]
    rw [putList_writeSum ops _ h1]
    have h0 : writeSum (NewLockFreeCache hash size : LockFreeCache K V) = 0 := by
      simp [NewLockFreeCache, hpos, writeSum]
    omega

/-- Witness for `put_write_counters`: one `Put` on a fresh size-4 cache takes
the write-counter sum from 0 to 1, and two `Put` calls leave it at 2. -/
theorem put_write_counters_witness :
    writeSum ((NewLockFreeCache (fun x => x) 4 : LockFreeCache Nat Nat).Put 3 5 0)
        = writeSum (NewLockFreeCache (fun x => x) 4 : LockFreeCache Nat Nat) + 1 ∧
    writeSum ((NewLockFreeCache (fun x => x) 4 : LockFreeCache Nat Nat).putList
        [(1, 7, 0), (2, 8, 0)]) = 2 :=
  ⟨((put_write_counters (NewLockFreeCache (fun x => x) 4) 3 5 0 [(1, 7, 0), (2, 8, 0)]
      (fun x => x) 4).1 (by decide)).1,
   (put_write_counters (NewLockFreeCache (fun x => x) 4) 3 5 0 [(1, 7, 0), (2, 8, 0)]
      (fun x => x) 4).2.2 (by decide)⟩

/-- C10: on an enabled cache every `Get` increments `readHits` exactly on a
hit and `readMisses` exactly on a miss, leaving the other read counter and
all five write counters unchanged; on a disabled cache `Get` changes
nothing. -/
theorem get_read_counters {K V : Type} (c : LockFreeCache K V) (k : K) :
    (c.initialized = true →
        (((c.Get k).2).isSome = true →
            (c.Get k).1.readHits = c.readHits + 1 ∧ (c.Get k).1.readMisses = c.readMisses) ∧
        ((c.Get k).2 = none →
            (c.Get k).1.readMisses = c.readMisses + 1 ∧ (c.Get k).1.readHits = c.readHits) ∧
        (c.Get k).1.firstWrites = c.firstWrites ∧
        (c.Get k).1.probeWrites = c.probeWrites ∧
        (c.Get k).1.emptyWrites = c.emptyWrites ∧
        (c.Get k).1.randomCASWrites = c.randomCASWrites ∧
        (c.Get k).1.randomWrites = c.randomWrites) ∧
    (c.initialized = false → c.Get k = (c, none)) := by
  constructor
  · intro hinit
    unfold LockFreeCache.Get
    rw [hinit]
    dsimp only
    cases hr : (getGo (c.hash k) c.size 0 c.hashProbeDepth c.entries).2.1 with
    | none => simp [hr]
    | some v => simp [hr]
  · intro hinit
    unfold LockFreeCache.Get
    rw [hinit]
    rfl

/-- Witness for `get_read_counters`: a miss on a fresh size-2 cache bumps
`readMisses` and leaves `readHits` alone. -/
theorem get_read_counters_witness :
    ((NewLockFreeCache (fun x => x) 2 : LockFreeCache Nat Nat).Get 1).1.readMisses
        = (NewLockFreeCache (fun x => x) 2 : LockFreeCache Nat Nat).readMisses + 1 ∧
    ((NewLockFreeCache (fun x => x) 2 : LockFreeCache Nat Nat).Get 1).1.readHits
        = (NewLockFreeCache (fun x => x) 2 : LockFreeCache Nat Nat).readHits :=
  ((get_read_counters (NewLockFreeCache (fun x => x) 2) 1).1 (by decide)).2.1 (by decide)
/-- The probe loop of `Get` inspects at most `fuel` slots, all of them probe
positions `probeIndex keyHash j size` with `j` in the window `[i, i + fuel)`
of probe numbers. -/
theorem getGo_trace_spec {V : Type} (keyHash size : Nat) :
    ∀ (fuel i : Nat) (es : List (Option (CacheEntry V))),
      ((getGo keyHash size i fuel es).2.2).length ≤ fuel ∧
      ∀ idx ∈ (getGo keyHash size i fuel es).2.2,
        ∃ j, i ≤ j ∧ j < i + fuel ∧ idx = probeIndex keyHash j size := by
  intro fuel
  induction fuel with
  | zero =>
    intro i es
    refine ⟨by simp [getGo], by simp [getGo]⟩
  | succ n ih =>
    intro i es
    rw [getGo]
    split
    · obtain ⟨ih1, ih2⟩ := ih (i + 1) es
      refine ⟨by simpa using ih1, ?_⟩
      intro idx hidx
      rcases List.mem_cons.mp hidx with h | h
      · exact ⟨i, le_rfl, by omega, h⟩
      · obtain ⟨j, hj1, hj2, hj3⟩ := ih2 idx h
        exact ⟨j, by omega, by omega, hj3⟩
    · split
      · obtain ⟨ih1, ih2⟩ := ih (i + 1) es
        refine ⟨by simpa using ih1, ?_⟩
        intro idx hidx
        rcases List.mem_cons.mp hidx with h | h
        · exact ⟨i, le_rfl, by omega, h⟩
        · obtain ⟨j, hj1, hj2, hj3⟩ := ih2 idx h
          exact ⟨j, by omega, by omega, hj3⟩
      · split
        · obtain ⟨ih1, ih2⟩ := ih (i + 1) (es.set (probeIndex keyHash i size) none)
          refine ⟨by simpa using ih1, ?_⟩
          intro idx hidx
          rcases List.mem_cons.mp hidx with h | h
          · exact ⟨i, le_rfl, by omega, h⟩
          · obtain ⟨j, hj1, hj2, hj3⟩ := ih2 idx h
            exact ⟨j, by omega, by omega, hj3⟩
        · split
          · refine ⟨by simp, ?_⟩
            intro idx hidx
            rcases List.mem_cons.mp hidx with h | h
            · exact ⟨i, le_rfl, by omega, h⟩
            · simp at h
          · obtain ⟨ih1, ih2⟩ := ih (i + 1) es
            refine ⟨by simpa using ih1, ?_⟩
            intro idx hidx
            rcases List.mem_cons.mp hidx with h | h
            · exact ⟨i, le_rfl, by omega, h⟩
            · obtain ⟨j, hj1, hj2, hj3⟩ := ih2 idx h
              exact ⟨j, by omega, by omega, hj3⟩

/-- C2: on an enabled cache `Get` inspects at most `hashProbeDepth` slots and
only the indices `probeIndex hash i size` for `i` in `[0, hashProbeDepth)` —
it never scans beyond the probe positions. -/
theorem get_probe_bound {K V : Type} (c : LockFreeCache K V) (k : K)
    (hc : c.initialized = true) :
    (c.GetTrace k).length ≤ c.hashProbeDepth ∧
    ∀ idx ∈ c.GetTrace k,
      ∃ i, i < c.hashProbeDepth ∧ idx = probeIndex (c.hash k) i c.size := by
  unfold LockFreeCache.GetTrace
  split
  · rename_i hbad
    rw [hc] at hbad
    simp at hbad
  · obtain ⟨h1, h2⟩ := getGo_trace_spec (c.hash k) c.size c.hashProbeDepth 0 c.entries
    refine ⟨h1, ?_⟩
    intro idx hidx
    obtain ⟨j, _, hj2, hj3⟩ := h2 idx hidx
    exact ⟨j, by omega, hj3⟩

/-- Witness for `get_probe_bound` on a fresh size-4 cache. -/
theorem get_probe_bound_witness :
    ((NewLockFreeCache (fun x => x) 4 : LockFreeCache Nat Nat).GetTrace 3).length
        ≤ (NewLockFreeCache (fun x => x) 4 : LockFreeCache Nat Nat).hashProbeDepth ∧
    ∀ idx ∈ (NewLockFreeCache (fun x => x) 4 : LockFreeCache Nat Nat).GetTrace 3,
      ∃ i, i < (NewLockFreeCache (fun x => x) 4 : LockFreeCache Nat Nat).hashProbeDepth ∧
        idx = probeIndex ((NewLockFreeCache (fun x => x) 4 : LockFreeCache Nat Nat).hash 3) i
          (NewLockFreeCache (fun x => x) 4 : LockFreeCache Nat Nat).size :=
  get_probe_bound (NewLockFreeCache (fun x => x) 4) 3 (by decide)

/-- No tier-1 probe can hit in an all-nil slot table. -/
theorem tier1Hit_replicate {V : Type} (h sz m i : Nat) :
    tier1Hit (List.replicate m (none : Option (CacheEntry V))) h sz i = false := by
  unfold tier1Hit
  rw [List.getD_eq_getElem?_getD, List.getElem?_replicate]
  split
  · rename_i entry heq
    split at heq <;> simp at heq
  · rfl

/-- Put's first tier finds nothing in an all-nil slot table. -/
theorem find?_tier1_replicate {V : Type} (h sz m d : Nat) :
    (List.range d).find? (tier1Hit (List.replicate m (none : Option (CacheEntry V))) h sz)
      = none := by
  apply List.find?_eq_none.mpr
  intro x hx
  simp [tier1Hit_replicate]

/-- Every slot of an all-nil table passes the tier-2 reclaim test. -/
theorem tier2Reclaim_replicate {V : Type} (h sz m i : Nat) :
    tier2Reclaim (List.replicate m (none : Option (CacheEntry V))) h sz i = true := by
  unfold tier2Reclaim
  rw [List.getD_eq_getElem?_getD, List.getElem?_replicate]
  split
  · rfl
  · rename_i entry heq
    split at heq <;> simp at heq

/-- On an all-nil table Put's second tier claims probe step 0. -/
theorem find?_tier2_replicate {V : Type} (h m sz : Nat) (hsz : 0 < sz) :
    (List.range sz).find? (tier2Reclaim (List.replicate m (none : Option (CacheEntry V))) h sz)
      = some 0 := by
  obtain ⟨n, rfl⟩ : ∃ n, sz = n + 1 := ⟨sz - 1, by omega⟩
  rw [List.range_succ_eq_map]
  rw [List.find?_cons]
  simp [tier2Reclaim_replicate]

/-- If the first probe slot holds a live entry with the (non-zero) key hash,
the probe loop hits immediately. -/
theorem getGo_first_hit {V : Type} (keyHash size d : Nat)
    (es : List (Option (CacheEntry V))) (v : V) (hk : ¬ keyHash = 0)
    (hget : es.getD (probeIndex keyHash 0 size) none
        = some { keyHash := keyHash, valueRef := some v }) :
    getGo keyHash size 0 (d + 1) es = (es, some v, [probeIndex keyHash 0 size]) := by
  rw [getGo]
  simp only [hget]
  rw [if_neg hk]
  simp

/-- C1 (amended): on a freshly constructed cache of any positive size (no
operation between construction and the `Put`), `Put(k, v)` immediately
followed by `Get(k)` returns `(v, true)` for every key whose seeded hash is
non-zero, while `v` is reachable.  Both restrictions are forced by the
counterexample: a hash-0 key is stored as a tombstone and always misses, and
on an evolved cache a `Put` can land via tier 2 beyond the first
`hashProbeDepth` probe positions, unreachable to `Get`, even with a non-zero
hash. -/
theorem put_get_roundtrip_fresh {K V : Type} (hash : K → Nat) (size : Int) (hsz : 0 < size)
    (k : K) (hk : hash k ≠ 0) (v : V) (rnd : Nat) :
    (((NewLockFreeCache hash size : LockFreeCache K V).Put k v rnd).Get k).2 = some v := by
  have hpos : ¬ size ≤ 0 := not_le.mpr hsz
  have hszpos : 0 < size.toNat := by omega
  rw [NewLockFreeCache, if_neg hpos]
  unfold LockFreeCache.Put
  split
  · rename_i hbad
    simp at hbad
  · dsimp only
    rw [find?_tier1_replicate, find?_tier2_replicate _ _ _ hszpos]
    dsimp only
    unfold LockFreeCache.Get
    split
    · rename_i hbad
      simp at hbad
    · dsimp only
      obtain ⟨d, hd⟩ : ∃ d, (1 ⊔ intLog2 size.toNat) = d + 1 :=
        ⟨(1 ⊔ intLog2 size.toNat) - 1, by
          have := le_max_left 1 (intLog2 size.toNat); omega⟩
      have hidx : probeIndex (hash k) 0 size.toNat < size.toNat := Nat.mod_lt _ hszpos
      have hget : ((List.replicate size.toNat (none : Option (CacheEntry V))).set
          (probeIndex (hash k) 0 size.toNat)
          (some ⟨hash k, some v⟩)).getD (probeIndex (hash k) 0 size.toNat) none
          = some ⟨hash k, some v⟩ := by
        rw [List.getD_eq_getElem?_getD, List.getElem?_set]
        simp [hidx]
      rw [hd, getGo_first_hit _ _ _ _ _ hk hget]

/-- C1 counterexample, two concrete failures of the round-trip as claimed.
First: a key whose seeded hash is 0, put into a fresh size-1 cache, misses on
the immediate `Get` (the stored entry is indistinguishable from a tombstone).
Second: on an evolved size-4 cache (probe depth 2) whose slots 0 and 1 hold
live entries for hashes 4 and 5, a key with the non-zero hash `2 ^ 32`
(probe positions 0, 1, 2, 3) is placed by tier 2 at slot 2, beyond the first
`hashProbeDepth` probe positions, so the immediate `Get` — with no intervening
`Put` at all — misses as well. -/
theorem put_get_roundtrip_cex :
    ((((NewLockFreeCache (fun _ => 0) 1 : LockFreeCache Nat Nat)).Put 5 42 0).Get 5).2 = none ∧
    (((((NewLockFreeCache (fun x => x) 4 : LockFreeCache Nat Nat).Put 4 40 0).Put 5 50 0).Put
        4294967296 60 0).Get 4294967296).2 = none := by
  constructor
  · decide
  · decide

/-- Witness for `put_get_roundtrip_fresh` at size 3, key 2, value 99. -/
theorem put_get_roundtrip_fresh_witness :
    (((NewLockFreeCache (fun x => x) 3 : LockFreeCache Nat Nat).Put 2 99 0).Get 2).2 = some 99 :=
  put_get_roundtrip_fresh (fun x => x) 3 (by decide) 2 (by decide) 99 0

/-- On a duplicate-free list, `findIdx?` of an equality test finds exactly
the position of the element (offset by the accumulator). -/
theorem findIdx?_beq_nodup :
    ∀ (hs : List Nat) (s : Nat), hs.Nodup →
      ∀ (j : Nat) (hj : j < hs.length) (h : Nat), hs.get ⟨j, hj⟩ = h →
        hs.findIdx? (· == h) s = some (s + j) := by
  intro hs
  induction hs with
  | nil =>
    intro s _ j hj
    exact absurd hj (by simp)
  | cons x xs ih =>
    intro s hnd j hj h hget
    rcases j with _ | j
    · simp at hget
      rw [List.findIdx?_cons]
      simp [hget]
    · have hx : x ∉ xs := (List.nodup_cons.mp hnd).1
      have hnd2 : xs.Nodup := (List.nodup_cons.mp hnd).2
      have hj2 : j < xs.length := by simpa using hj
      have hget2 : xs.get ⟨j, hj2⟩ = h := by simpa using hget
      have hmem : h ∈ xs := by
        rw [← hget2]; exact List.get_mem xs j hj2
      have hne : x ≠ h := fun hcontra => hx (hcontra ▸ hmem)
      rw [List.findIdx?_cons]
      have : (x == h) = false := by simpa using hne
      rw [this]
      simp only [Bool.false_eq_true, if_false]
      rw [ih (s + 1) hnd2 j hj2 h hget2]
      congr 1
      omega

/-- Putting a list of keys with pairwise-distinct non-zero hashes into a
fresh unbounded growable cache appends them in order: the parallel slices
are exactly the hash and value lists. -/
theorem putList_fresh_state {K V : Type} (hash : K → Nat) :
    ∀ (l : List (K × V)),
      (l.map (fun kv => hash kv.1)).Nodup →
      (∀ kv ∈ l, hash kv.1 ≠ 0) →
      ((NewCache hash 0 0 : Cache K V).putList l).keyHashes
          = l.map (fun kv => hash kv.1) ∧
      ((NewCache hash 0 0 : Cache K V).putList l).values
          = l.map (fun kv => some kv.2) ∧
      ((NewCache hash 0 0 : Cache K V).putList l).hash = hash ∧
      ((NewCache hash 0 0 : Cache K V).putList l).maxSize = 0 ∧
      ((NewCache hash 0 0 : Cache K V).putList l).initialized = true := by
  intro l
  induction l using List.reverseRecOn with
  | nil =>
    intro _ _
    refine ⟨rfl, rfl, rfl, rfl, rfl⟩
  | append_singleton l a ih =>
    intro hnd hnz
    have hnd2 : (l.map (fun kv => hash kv.1)).Nodup ∧ hash a.1 ∉ l.map (fun kv => hash kv.1) := by
      rw [List.map_append] at hnd
      simp [List.nodup_append] at hnd
      constructor
      · exact hnd.1
      · intro hmem
        rw [List.mem_map] at hmem
        obtain ⟨kv, hkv, heq⟩ := hmem
        exact hnd.2 kv.1 kv.2 hkv heq
    have hnz2 : ∀ kv ∈ l, hash kv.1 ≠ 0 := fun kv hkv => hnz kv (by simp [hkv])
    obtain ⟨ih1, ih2, ih3, ih4, ih5⟩ := ih hnd2.1 hnz2
    have hstep : ((NewCache hash 0 0 : Cache K V).putList (l ++ [a]))
        = ((NewCache hash 0 0 : Cache K V).putList l).Put a.1 a.2 0 := by
      simp [Cache.putList, List.foldl_append]
    rw [hstep]
    set s := (NewCache hash 0 0 : Cache K V).putList l with hs
    unfold Cache.Put
    rw [ih5]
    simp only [Bool.not_true, Bool.false_eq_true, if_false]
    rw [ih3, ih1]
    have hfind1 : (l.map (fun kv => hash kv.1)).findIdx? (· == hash a.1) = none := by
      rw [List.findIdx?_eq_none_iff]
      intro x hx
      simp only [beq_eq_false_iff_ne, ne_eq]
      intro hcontra
      exact hnd2.2 (hcontra ▸ hx)
    have hfind0 : (l.map (fun kv => hash kv.1)).findIdx? (· == 0) = none := by
      rw [List.findIdx?_eq_none_iff]
      intro x hx
      rw [List.mem_map] at hx
      obtain ⟨kv, hkv, rfl⟩ := hx
      simpa using hnz2 kv hkv
    rw [hfind1, hfind0]
    dsimp only
    rw [ih4]
    rw [if_neg (by simp)]
    refine ⟨?_, ?_, ?_, ?_, ?_⟩
    · dsimp only
      simp [List.map_append]
    · dsimp only
      simp [List.map_append, ih2]
    · rfl
    · rfl
    · rfl

/-- C9: on a `GrowableCache(initialSize=0, maxSize=0)`, putting 1000 distinct
keys with pairwise-distinct non-zero seeded hashes (all referents alive)
gives `Len() = 1000` and every key retrieves its value with `found = true`. -/
theorem growable_put_thousand {K V : Type} (hash : K → Nat) (l : List (K × V))
    (hnd : (l.map (fun kv => hash kv.1)).Nodup)
    (hnz : ∀ kv ∈ l, hash kv.1 ≠ 0)
    (hlen : l.length = 1000) :
    ((NewCache hash 0 0 : Cache K V).putList l).Len = 1000 ∧
    ∀ kv ∈ l, (((NewCache hash 0 0 : Cache K V).putList l).Get kv.1).2 = some kv.2 := by
  obtain ⟨h1, h2, h3, h4, h5⟩ := putList_fresh_state hash l hnd hnz
  constructor
  · rw [Cache.Len, h1]
    simp [hlen]
  · intro kv hkv
    obtain ⟨⟨j, hj⟩, hget⟩ := List.mem_iff_get.mp hkv
    have hjm : j < (l.map (fun kv => hash kv.1)).length := by simpa using hj
    have hgetm : (l.map (fun kv => hash kv.1)).get ⟨j, hjm⟩ = hash kv.1 := by
      have hgj : l[j] = kv := hget
      simp [List.getElem_map, hgj]
    have hfind : (l.map (fun kv => hash kv.1)).findIdx? (· == hash kv.1) = some j := by
      have := findIdx?_beq_nodup (l.map (fun kv => hash kv.1)) 0 hnd j hjm (hash kv.1) hgetm
      simpa using this
    have hval : ((NewCache hash 0 0 : Cache K V).putList l).values.getD j none = some kv.2 := by
      rw [h2, List.getD_eq_getElem?_getD, List.getElem?_map]
      have : l[j]? = some kv := by
        rw [List.getElem?_eq_getElem hj]
        simp [← hget]
      rw [this]
      rfl
    unfold Cache.Get
    rw [h5]
    simp only [Bool.not_true, Bool.false_eq_true, if_false]
    rw [h3, h1, hfind]
    dsimp only
    rw [hval]

/-- Witness for `growable_put_thousand` on the keys `1 .. 1000`. -/
theorem growable_put_thousand_witness :
    ((NewCache (fun x => x) 0 0 : Cache Nat Nat).putList
        ((List.range 1000).map (fun n => (n + 1, n)))).Len = 1000 ∧
    ∀ kv ∈ (List.range 1000).map (fun n => (n + 1, n)),
      (((NewCache (fun x => x) 0 0 : Cache Nat Nat).putList
          ((List.range 1000).map (fun n => (n + 1, n)))).Get kv.1).2 = some kv.2 :=
  growable_put_thousand (fun x => x) ((List.range 1000).map (fun n => (n + 1, n)))
    (by
      simp [List.map_map]
      exact List.Nodup.map (fun a b hab => by
        simp [Function.comp] at hab
        omega) (List.nodup_range 1000))
    (by
      intro kv hkv
      rw [List.mem_map] at hkv
      obtain ⟨n, _, rfl⟩ := hkv
      simp)
    (by simp)
